import Mathlib

/-!
Catalog synchronisation engine of the playlist backend.

A shallow embedding of `src/routes/playlists.js` (the `/import` and
`/song-of-the-day` handlers and the `millisToMinutesAndSeconds` helper) over the
documents of `src/models/Playlist.js` and `src/models/User.js`.

Conventions of the embedding:

* instants are milliseconds since the epoch, as `Date.now()` reports them (`Nat`);
* the document store is a list of `Playlist` documents in insertion order, and
  its operations are total;
* the remote provider is a record of response functions, one per endpoint, each
  a function of what the request carries; a rejected request is `Except.error`;
* every awaited call of the handler is recorded, in order, in a list of `Call`s;
* a non-negative integer that reaches the code as a JavaScript number is the
  double nearest to it; the arithmetic of `millisToMinutesAndSeconds` is the
  arithmetic of doubles (correctly rounded division, exact remainder), and a
  number is printed with the fewest digits that read back as the same double;
* a `Date` holds a time value of at most `8.64e15` milliseconds; one built from a
  larger number is invalid and the save of a document carrying it is rejected.
-/

namespace Backend

/-! ## Documents (`src/models`) -/

/-- The sub-document `trackSchema` of `Playlist.js`. -/
structure Track where
  trackId : Option String
  name : String
  artist : String
  duration : String
deriving DecidableEq

/-- The embedded `owner` object of `playlistSchema`. -/
structure Owner where
  _id : String
  displayName : String
deriving DecidableEq

/-- A document of the `Playlist` collection (`playlistSchema`). -/
structure Playlist where
  spotifyPlaylistId : String
  name : String
  description : String
  coverImage : String
  owner : Owner
  trackCount : Nat
  isPublic : Bool
  tracks : List Track
  likes : Nat
  commentsCount : Nat
  sharedWith : List String
  createdAt : Nat
deriving DecidableEq

/-- A document of the `User` collection (`User.js`); the three token fields are
`null` after `POST /logout`. -/
structure User where
  _id : String
  spotifyId : String
  displayName : String
  email : String
  avatarUrl : Option String
  accessToken : Option String
  refreshToken : Option String
  tokenExpiresAt : Option Nat
  createdAt : Nat
deriving DecidableEq

/-! ## What the provider returns -/

/-- One element of `item.images`. -/
structure Image where
  url : String
deriving DecidableEq

/-- One element of `item.track.artists`. -/
structure Artist where
  name : String
deriving DecidableEq

/-- The `track` object of a tracks-page entry. -/
structure SpotifyTrack where
  id : Option String
  name : String
  artists : List Artist
  duration_ms : Nat
deriving DecidableEq

/-- One element of `tracksRes.data.items`; `track` is `null` for a removed track. -/
structure TrackItem where
  track : Option SpotifyTrack
deriving DecidableEq

/-- One element of `spotifyRes.data.items`; `tracksTotal` is `item.tracks.total`
and `isPublic` is `item.public`. -/
structure PlaylistItem where
  id : String
  name : String
  description : Option String
  images : Option (List Image)
  tracksTotal : Nat
  isPublic : Bool
deriving DecidableEq

/-- The body of a successful token exchange (`tokenResponse.data`). -/
structure TokenResponse where
  access_token : String
  expires_in : Nat
deriving DecidableEq

/-- The provider: the answer to the token exchange carrying a refresh token, to
the playlist listing carrying an `Authorization` header, and to the track listing
of a playlist id carrying an `Authorization` header. -/
structure Remote where
  token : Option String → Except String TokenResponse
  playlists : String → Except String (List PlaylistItem)
  tracks : String → String → Except String (List TrackItem)

/-- The readings of the clock during one import: `new Date()` of the expiry test,
`Date.now()` of the expiry computation, and the `Date.now` default of `createdAt`
when the document of the `k`-th provider item is inserted. -/
structure Clock where
  newDate : Nat
  dateNow : Nat
  insertedAt : Nat → Nat

/-- The awaited calls of the import handler. -/
inductive Call where
  | tokenExchange (refresh_token : Option String)
  | saveUser
  | listPlaylists (authorization : String)
  | listTracks (playlistId : String) (authorization : String)
  | findOneAndUpdate (spotifyPlaylistId : String)
deriving DecidableEq

/-- The `Authorization` header of a catalog call, if the call is one. -/
def Call.authorization? : Call → Option String
  | .listPlaylists a => some a
  | .listTracks _ a => some a
  | _ => none

/-! ## `millisToMinutesAndSeconds` -/

/-- The number of binary digits of `n`, counted with fuel. -/
def bitLengthAux : Nat → Nat → Nat
  | 0, _ => 0
  | fuel + 1, n => if n = 0 then 0 else bitLengthAux fuel (n / 2) + 1

/-- The number of binary digits of `n`. -/
def bitLength (n : Nat) : Nat :=
  bitLengthAux n n

/-- The integer nearest to `num / den`, the even one on a tie. -/
def roundHalfEven (num den : Nat) : Nat :=
  if 2 * (num % den) > den ∨ (2 * (num % den) = den ∧ (num / den) % 2 = 1) then num / den + 1
  else num / den

/-- The double nearest to the integer `n` (53 significant binary digits, ties to
even), which is the number a JSON integer is read as; `none` is `Infinity`. -/
def toDouble (n : Nat) : Option Nat :=
  if n < 2 ^ 53 then some n
  else
    let e := bitLength n - 53
    let d := roundHalfEven n (2 ^ e) * 2 ^ e
    if bitLength d ≤ 1024 then some d else none

/-- A non-negative double that is not an integer in general: the value
`mantissa * 2 ^ up / 2 ^ down`. -/
structure Dyadic where
  mantissa : Nat
  up : Nat
  down : Nat
deriving DecidableEq

/-- Doubling the denominator until the quotient is below `2 ^ 53`. -/
def scaleDown : Nat → Nat → Nat → Nat → Nat × Nat
  | 0, _, den, t => (den, t)
  | fuel + 1, num, den, t =>
    if 2 ^ 53 * den ≤ num then scaleDown fuel num (2 * den) (t + 1) else (den, t)

/-- Doubling the numerator until the quotient is at least `2 ^ 52`. -/
def scaleUp : Nat → Nat → Nat → Nat → Nat × Nat
  | 0, num, _, s => (num, s)
  | fuel + 1, num, den, s =>
    if num < 2 ^ 52 * den then scaleUp fuel (2 * num) den (s + 1) else (num, s)

/-- The double `a / b` of two integer doubles, `b` positive: the quotient rounded
to 53 significant binary digits, ties to even. -/
def divDouble (a b : Nat) : Dyadic :=
  if a = 0 then ⟨0, 0, 0⟩
  else
    let den := scaleDown 1100 a b 0
    let num := scaleUp 1100 a den.1 0
    ⟨roundHalfEven num.1 den.1, den.2, num.2⟩

/-- The function `Math.floor`. -/
def Dyadic.floor (x : Dyadic) : Nat :=
  x.mantissa * 2 ^ x.up / 2 ^ x.down

/-- The string `x.toFixed(0)` for `x` below `1e21`: the decimal string of the
integer nearest to `x`, the larger one on a tie. -/
def toFixed0 (x : Dyadic) : String :=
  toString ((2 * (x.mantissa * 2 ^ x.up) + 2 ^ x.down) / (2 * 2 ^ x.down))

/-- The powers of ten up to `v`, collected in descending order. -/
def scalesFrom : Nat → Nat → Nat → List Nat → List Nat
  | 0, _, _, acc => acc
  | fuel + 1, p, v, acc => if p ≤ v then scalesFrom fuel (10 * p) v (p :: acc) else acc

/-- The powers of ten up to `v`, the largest first. -/
def scalesOf (v : Nat) : List Nat :=
  scalesFrom 400 1 v []

/-- The search of number-to-string conversion: at each power of ten `p`, from the
largest, the two multiples of `p` around `v`; the first that reads back as `v` is
taken, the nearer of the two if both do, the one with an even multiplier on a tie. -/
def searchScales (v : Nat) : List Nat → Nat
  | [] => v
  | p :: ps =>
    let lo := v / p * p
    let hi := lo + p
    if toDouble lo = some v then
      if toDouble hi = some v then
        if v - lo < hi - v then lo
        else if hi - v < v - lo then hi
        else if (v / p) % 2 = 0 then lo else hi
      else lo
    else if toDouble hi = some v then hi
    else searchScales v ps

/-- The integer with the fewest significant digits that reads back as the integer
double `v`. -/
def shortestDecimal (v : Nat) : Nat :=
  searchScales v (scalesOf v)

/-- The digits without the zeros at their end. -/
def dropTrailingZeros (digits : List Char) : List Char :=
  (digits.reverse.dropWhile (fun c => c == '0')).reverse

/-- The exponential form of number-to-string conversion, used from `1e21` on. -/
def exponential (c : Nat) : String :=
  let digits := Nat.toDigits 10 c
  match dropTrailingZeros digits with
  | [] => "0"
  | [d] => String.mk [d] ++ "e+" ++ toString (digits.length - 1)
  | d :: ds => String.mk (d :: '.' :: ds) ++ "e+" ++ toString (digits.length - 1)

/-- The string of the integer double `v` in a template literal. -/
def numberToString (v : Nat) : String :=
  if shortestDecimal v < 10 ^ 21 then toString (shortestDecimal v)
  else exponential (shortestDecimal v)

/-- The number a string of decimal digits converts to when it is compared with a
number. -/
def toNumber (s : String) : Nat :=
  s.data.foldl (fun acc c => 10 * acc + (c.toNat - 48)) 0

/-- The helper at the end of `playlists.js`, on the number that the integer
`durationMs` is read as. An infinite `ms` gives the minutes `Infinity` and the
seconds `NaN`, which is not below 10. -/
def millisToMinutesAndSeconds (durationMs : Nat) : String :=
  match toDouble durationMs with
  | none => "Infinity:NaN"
  | some ms =>
    let minutes := (divDouble ms 60000).floor
    let seconds := toFixed0 (divDouble (ms % 60000) 1000)
    numberToString minutes ++ ":" ++ (if toNumber seconds < 10 then "0" else "") ++ seconds

/-- The seconds component as the specification words it: the remainder of the
duration modulo one minute, divided by 1000 and rounded, halves upwards. -/
def specSeconds (durationMs : Nat) : Nat :=
  let r := durationMs % 60000
  r / 1000 + (if 500 ≤ r % 1000 then 1 else 0)

/-- The formatted duration as the specification words it. -/
def specDuration (durationMs : Nat) : String :=
  let minutes := durationMs / 60000
  let seconds := specSeconds durationMs
  let pad := if seconds < 10 then "0" else ""
  toString minutes ++ ":" ++ pad ++ toString seconds

/-! ## `GET /import` -/

/-- The template literal `Bearer ${user.accessToken}`; a `null` token prints as
`null`. -/
def bearer (user : User) : String :=
  "Bearer " ++ user.accessToken.getD "null"

/-- The test `new Date() >= user.tokenExpiresAt`; a `null` expiry converts to 0. -/
def needsRefresh (now : Nat) (user : User) : Bool :=
  match user.tokenExpiresAt with
  | some expiresAt => decide (now ≥ expiresAt)
  | none => decide (now ≥ 0)

/-- The largest time value of a `Date`. -/
def maxTimeValue : Nat :=
  8640000000000000

/-- Step 1 of the handler: the stored user document after it, or the error thrown,
with the calls made. `new Date(...)` of a number above `maxTimeValue` is an invalid
date, which `user.save()` rejects, leaving the stored document as it was. -/
def refreshIfExpired (remote : Remote) (clock : Clock) (user : User) :
    Except String User × List Call :=
  if needsRefresh clock.newDate user then
    match remote.token user.refreshToken with
    | .error e => (.error e, [.tokenExchange user.refreshToken])
    | .ok tokenResponse =>
      if clock.dateNow + tokenResponse.expires_in * 1000 ≤ maxTimeValue then
        (.ok { user with
                accessToken := some tokenResponse.access_token
                tokenExpiresAt := some (clock.dateNow + tokenResponse.expires_in * 1000) },
         [.tokenExchange user.refreshToken, .saveUser])
      else
        (.error "ValidationError", [.tokenExchange user.refreshToken, .saveUser])
  else (.ok user, [])

/-- The object `playlistData` once its `tracks` are assigned. -/
structure PlaylistData where
  spotifyPlaylistId : String
  name : String
  description : String
  coverImage : String
  owner : Owner
  trackCount : Nat
  isPublic : Bool
  tracks : List Track
deriving DecidableEq

/-- The `coverImage` expression: the url of the first image when `item.images` is a
non-empty array. -/
def coverImageOf (images : Option (List Image)) : String :=
  match images with
  | some (image :: _) => image.url
  | _ => ""

/-- The data blob of one provider item. -/
def playlistDataOf (user : User) (item : PlaylistItem) (tracks : List Track) : PlaylistData :=
  { spotifyPlaylistId := item.id
    name := item.name
    description := item.description.getD ""
    coverImage := coverImageOf item.images
    owner := { _id := user._id, displayName := user.displayName }
    trackCount := item.tracksTotal
    isPublic := item.isPublic
    tracks := tracks }

/-- The callback of `.map` on a tracks-page entry; reading `item.track.id` of a
`null` track throws. -/
def toTrack (item : TrackItem) : Except String Track :=
  match item.track with
  | none => .error "TypeError"
  | some track =>
    .ok { trackId := track.id
          name := track.name
          artist := ", ".intercalate (track.artists.map (fun a => a.name))
          duration := millisToMinutesAndSeconds track.duration_ms }

/-- The `.map` over the filtered entries, stopping at the first throw. -/
def mapTracks : List TrackItem → Except String (List Track)
  | [] => .ok []
  | item :: rest =>
    match toTrack item with
    | .error e => .error e
    | .ok t =>
      match mapTracks rest with
      | .error e => .error e
      | .ok ts => .ok (t :: ts)

/-- The expression assigned to `playlistData.tracks`. -/
def importTracks (items : List TrackItem) : Except String (List Track) :=
  mapTracks (items.filter (fun item => item.track.isSome))

/-- The effect of `$set: playlistData` on an existing document. -/
def applySet (doc : Playlist) (data : PlaylistData) : Playlist :=
  { doc with
    spotifyPlaylistId := data.spotifyPlaylistId
    name := data.name
    description := data.description
    coverImage := data.coverImage
    owner := data.owner
    trackCount := data.trackCount
    isPublic := data.isPublic
    tracks := data.tracks }

/-- The document an upsert inserts: the data blob and the schema defaults. -/
def newDocument (data : PlaylistData) (now : Nat) : Playlist :=
  { spotifyPlaylistId := data.spotifyPlaylistId
    name := data.name
    description := data.description
    coverImage := data.coverImage
    owner := data.owner
    trackCount := data.trackCount
    isPublic := data.isPublic
    tracks := data.tracks
    likes := 0
    commentsCount := 0
    sharedWith := []
    createdAt := now }

/-- The call `Playlist.findOneAndUpdate` with the query on `spotifyPlaylistId`,
the update `$set: data` and the options `upsert`, `new` and `setDefaultsOnInsert`:
the store after it and the document it returns. -/
def findOneAndUpdate : List Playlist → String → PlaylistData → Nat → List Playlist × Playlist
  | [], _, data, now => ([newDocument data now], newDocument data now)
  | doc :: docs, query, data, now =>
    if doc.spotifyPlaylistId = query then
      (applySet doc data :: docs, applySet doc data)
    else
      ((doc :: (findOneAndUpdate docs query data now).1),
       (findOneAndUpdate docs query data now).2)

/-- What the `for` loop leaves behind: the array `imported` (or the error thrown),
the store and the calls made. -/
structure LoopOutcome where
  imported : Except String (List Playlist)
  store : List Playlist
  calls : List Call

/-- Step 3 of the handler, from the `k`-th provider item on. -/
def importLoop (remote : Remote) (clock : Clock) (user : User) :
    Nat → List PlaylistItem → List Playlist → LoopOutcome
  | _, [], store => { imported := .ok [], store := store, calls := [] }
  | k, item :: rest, store =>
    match remote.tracks item.id (bearer user) with
    | .error e =>
      { imported := .error e, store := store, calls := [.listTracks item.id (bearer user)] }
    | .ok tracksRes =>
      match importTracks tracksRes with
      | .error e =>
        { imported := .error e, store := store, calls := [.listTracks item.id (bearer user)] }
      | .ok tracks =>
        let upserted :=
          findOneAndUpdate store item.id (playlistDataOf user item tracks) (clock.insertedAt k)
        let later := importLoop remote clock user (k + 1) rest upserted.1
        { imported := later.imported.map (fun ps => upserted.2 :: ps)
          store := later.store
          calls := .listTracks item.id (bearer user) :: .findOneAndUpdate item.id :: later.calls }

/-- The response of `GET /import`. -/
inductive ImportResponse where
  | json (message : String) (playlists : List Playlist)
  | status (code : Nat) (message : String)
deriving DecidableEq

/-- The handler's response together with the state it leaves. -/
structure ImportOutcome where
  response : ImportResponse
  user : User
  store : List Playlist
  calls : List Call

/-- The `catch` branch. -/
def importFailed : ImportResponse :=
  .status 500 "Failed to import playlists"

/-- The handler of `GET /api/playlists/import` for the authenticated `user`. -/
def importPlaylists (remote : Remote) (clock : Clock) (user : User) (store : List Playlist) :
    ImportOutcome :=
  match refreshIfExpired remote clock user with
  | (.error _, calls) =>
    { response := importFailed, user := user, store := store, calls := calls }
  | (.ok user, calls) =>
    match remote.playlists (bearer user) with
    | .error _ =>
      { response := importFailed, user := user, store := store
        calls := calls ++ [.listPlaylists (bearer user)] }
    | .ok items =>
      let loop := importLoop remote clock user 0 items store
      { response :=
          match loop.imported with
          | .ok imported => .json "Playlists imported" imported
          | .error _ => importFailed
        user := user
        store := loop.store
        calls := calls ++ .listPlaylists (bearer user) :: loop.calls }

/-! ## `GET /song-of-the-day` -/

/-- The response of `GET /song-of-the-day`; `res.json(track)` of an index out of
range would send `undefined`. -/
inductive SongResponse where
  | json (track : Option Track)
  | status (code : Nat) (message : String)
deriving DecidableEq

/-- The handler of `GET /api/playlists/song-of-the-day`, on the day of month
`day`. -/
def songOfTheDay (store : List Playlist) (userId : String) (day : Nat) : SongResponse :=
  let pls := store.filter (fun pl => pl.owner._id == userId)
  let allTracks := pls.flatMap (fun pl => pl.tracks)
  if allTracks.length = 0 then
    .status 404 "No tracks available"
  else
    let idx := day % allTracks.length
    .json allTracks[idx]?

/-- The flattened sequence as the specification words it: the playlists owned by
the user, their `tracks` concatenated in playlist-then-track order. -/
def flattenedTracks (store : List Playlist) (userId : String) : List Track :=
  ((store.filter (fun pl => decide (pl.owner._id = userId))).map (fun pl => pl.tracks)).flatten

/-! ## Store predicates -/

/-- The documents of the store carrying a given `spotifyPlaylistId`. -/
def rowsWith (store : List Playlist) (id : String) : List Playlist :=
  store.filter (fun pl => decide (pl.spotifyPlaylistId = id))

/-- At most one document per `spotifyPlaylistId` (the `unique` index). -/
def UniqueIds (store : List Playlist) : Prop :=
  ∀ id, (rowsWith store id).length ≤ 1

/-! ## Specification-side definitions and invariants -/

/-- The stored track of a present track object, as the specification words it. -/
def specTrack (track : SpotifyTrack) : Track :=
  { trackId := track.id
    name := track.name
    artist := String.intercalate ", " (track.artists.map Artist.name)
    duration := millisToMinutesAndSeconds track.duration_ms }

/-- The relation between a store and a later one that upserts maintain: an id
without a row gets at most one, and an id with rows keeps them, the first one with
its `createdAt`, `likes` and `commentsCount`. -/
def Keeps (s t : List Playlist) : Prop :=
  ∀ id, (rowsWith s id = [] → (rowsWith t id).length ≤ 1) ∧
    (∀ doc rest, rowsWith s id = doc :: rest →
      ∃ doc2, rowsWith t id = doc2 :: rest ∧ doc2.createdAt = doc.createdAt ∧
        doc2.likes = doc.likes ∧ doc2.commentsCount = doc.commentsCount)

/-- The calls the loop makes for the items it completes. -/
def completedCalls (user : User) (items : List PlaylistItem) : List Call :=
  items.flatMap (fun item => [.listTracks item.id (bearer user), .findOneAndUpdate item.id])

/-! ## Example data -/

/-- A user whose access token expires at instant 1000. -/
def exampleUser : User :=
  { _id := "u1", spotifyId := "s1", displayName := "Ana", email := "ana@example.org"
    avatarUrl := none, accessToken := some "old", refreshToken := some "r1"
    tokenExpiresAt := some 1000, createdAt := 0 }

/-- A playlist summary with the given id. -/
def exampleItem (id : String) : PlaylistItem :=
  { id := id, name := id, description := none, images := none, tracksTotal := 3
    isPublic := true }

/-- A tracks page with one removed track between two present ones. -/
def examplePage : List TrackItem :=
  [⟨some { id := some "t1", name := "One", artists := [⟨"A"⟩, ⟨"B"⟩], duration_ms := 61000 }⟩,
   ⟨none⟩,
   ⟨some { id := some "t2", name := "Two", artists := [⟨"C"⟩], duration_ms := 5000 }⟩]

/-- A provider with three playlists that answers every request. -/
def exampleRemote : Remote :=
  { token := fun _ => .ok { access_token := "new", expires_in := 3600 }
    playlists := fun _ => .ok [exampleItem "p1", exampleItem "p2", exampleItem "p3"]
    tracks := fun _ _ => .ok examplePage }

/-- The same provider, rejecting the track listing of the second playlist. -/
def failingRemote : Remote :=
  { exampleRemote with
    tracks := fun id _ => if id = "p2" then .error "502" else .ok examplePage }

/-- The provider `exampleRemote`, granting a lifetime of 8640000000000 seconds. -/
def longLivedRemote : Remote :=
  { exampleRemote with
    token := fun _ => .ok { access_token := "new", expires_in := 8640000000000 } }

/-- A clock whose expiry test falls on instant 1000. -/
def exampleClock : Clock :=
  { newDate := 1000, dateNow := 1001, insertedAt := fun k => 1002 + k }

/-- A clock of a later run, within the lifetime of the renewed token. -/
def laterClock : Clock :=
  { newDate := 5000, dateNow := 5001, insertedAt := fun k => 5002 + k }

/-- The user `exampleUser` after a renewal at `exampleClock`. -/
def renewedUser : User :=
  { exampleUser with accessToken := some "new", tokenExpiresAt := some 3601001 }

/-- A track named by its id. -/
def exampleTrack (id : String) : Track :=
  { trackId := some id, name := id, artist := "A", duration := "1:01" }

/-- A store with two playlists of `u1`, of three and two tracks, around one of
another user. -/
def exampleStore : List Playlist :=
  [{ newDocument (playlistDataOf exampleUser (exampleItem "p1")
        [exampleTrack "a", exampleTrack "b", exampleTrack "c"]) 10 with likes := 4 },
   newDocument (playlistDataOf { exampleUser with _id := "u2" } (exampleItem "p9")
        [exampleTrack "x"]) 11,
   newDocument (playlistDataOf exampleUser (exampleItem "p2")
        [exampleTrack "d", exampleTrack "e"]) 12]

/-! ## Duration formatting -/

theorem toDouble_of_lt (n : Nat) (h : n < 2 ^ 53) : toDouble n = some n := by
  unfold toDouble
  rw [if_pos h]

theorem roundHalfEven_ge (num den c : Nat) (hden : 0 < den) (h : c * den ≤ num) :
    c ≤ roundHalfEven num den := by
  have h0 : c ≤ num / den := (Nat.le_div_iff_mul_le hden).mpr h
  unfold roundHalfEven
  split <;> omega

theorem roundHalfEven_lt (num den c : Nat) (hden : 0 < den) (h : 2 * num + den < 2 * (c * den)) :
    roundHalfEven num den < c := by
  have hlt : num / den < c := by
    apply (Nat.div_lt_iff_lt_mul hden).mpr
    omega
  have hdm := Nat.div_add_mod num den
  have hmod := Nat.mod_lt num hden
  unfold roundHalfEven
  split
  · rename_i hup
    by_contra hc
    have hm0 : num / den + 1 = c := by omega
    have hmul : den * (num / den) + den = c * den := by
      rw [← hm0]; ring
    rcases hup with hup | ⟨hup, _⟩ <;> omega
  · exact hlt

theorem scaleUp_spec : ∀ (fuel num den s : Nat), 2 ^ 52 * den ≤ num * 2 ^ fuel →
    ∃ j, scaleUp fuel num den s = (num * 2 ^ j, s + j) ∧ 2 ^ 52 * den ≤ num * 2 ^ j ∧
      (j ≠ 0 → num * 2 ^ j < 2 ^ 53 * den) := by
  intro fuel
  induction fuel with
  | zero =>
    intro num den s h
    exact ⟨0, by simp [scaleUp], by simpa using h, by simp⟩
  | succ fuel ih =>
    intro num den s h
    unfold scaleUp
    by_cases hlt : num < 2 ^ 52 * den
    · rw [if_pos hlt]
      have h2 : 2 ^ 52 * den ≤ 2 * num * 2 ^ fuel := by
        rw [pow_succ] at h
        calc 2 ^ 52 * den ≤ num * (2 ^ fuel * 2) := h
          _ = 2 * num * 2 ^ fuel := by ring
      obtain ⟨j, hj, hle, hup⟩ := ih (2 * num) den (s + 1) h2
      refine ⟨j + 1, ?_, ?_, ?_⟩
      · rw [hj]
        simp only [Prod.mk.injEq]
        constructor
        · rw [pow_succ]; ring
        · omega
      · calc 2 ^ 52 * den ≤ 2 * num * 2 ^ j := hle
          _ = num * 2 ^ (j + 1) := by rw [pow_succ]; ring
      · intro _
        have e : num * 2 ^ (j + 1) = 2 * num * 2 ^ j := by rw [pow_succ]; ring
        rw [e]
        by_cases hj0 : j = 0
        · subst hj0
          simp only [pow_zero, mul_one]
          omega
        · exact hup hj0
    · rw [if_neg hlt]
      exact ⟨0, by simp, by simpa using Nat.le_of_not_lt hlt, by simp⟩


theorem scaleDown_of_lt (fuel num den t : Nat) (h : num < 2 ^ 53 * den) :
    scaleDown fuel num den t = (den, t) := by
  cases fuel with
  | zero => rfl
  | succ fuel =>
    unfold scaleDown
    rw [if_neg (by omega)]

theorem fuel_enough (a b fuel : Nat) (ha : 0 < a) (hb2 : b < 2 ^ 53) (hf : 105 ≤ fuel) :
    2 ^ 52 * b ≤ a * 2 ^ fuel := by
  have h1 : 2 ^ 52 * b ≤ 2 ^ 52 * 2 ^ 53 := Nat.mul_le_mul_left _ (Nat.le_of_lt hb2)
  have h2 : (2 : Nat) ^ 52 * 2 ^ 53 = 2 ^ 105 := by rw [← pow_add]
  have h3 : (2 : Nat) ^ 105 ≤ 2 ^ fuel := Nat.pow_le_pow_right (by omega) hf
  have h4 : 1 * 2 ^ fuel ≤ a * 2 ^ fuel := Nat.mul_le_mul_right _ ha
  calc 2 ^ 52 * b ≤ 2 ^ 52 * 2 ^ 53 := h1
    _ = 2 ^ 105 := h2
    _ ≤ 2 ^ fuel := h3
    _ = 1 * 2 ^ fuel := (Nat.one_mul _).symm
    _ ≤ a * 2 ^ fuel := h4

/-- The quotient of two positive integers below `2 ^ 53`: the numerator is scaled by
a power of two `p` and the scaled quotient rounded. -/
theorem divDouble_of_small (a b : Nat) (ha : 0 < a) (ha2 : a < 2 ^ 53) (hb : 0 < b)
    (hb2 : b < 2 ^ 53) :
    ∃ j, divDouble a b = ⟨roundHalfEven (a * 2 ^ j) b, 0, j⟩ ∧ 2 ^ 52 * b ≤ a * 2 ^ j := by
  have hfuel := fuel_enough a b 1100 ha hb2 (by omega)
  have hdown : scaleDown 1100 a b 0 = (b, 0) := by
    apply scaleDown_of_lt
    have : 2 ^ 53 * 1 ≤ 2 ^ 53 * b := Nat.mul_le_mul_left _ hb
    omega
  obtain ⟨j, hj, hle, _⟩ := scaleUp_spec 1100 a b 0 hfuel
  refine ⟨j, ?_, hle⟩
  unfold divDouble
  rw [if_neg (by omega)]
  simp only [hdown, hj, Nat.zero_add]

theorem floor_divDouble (a b : Nat) (ha2 : a < 2 ^ 53) (hb : 0 < b) (hb2 : b < 2 ^ 53) :
    (divDouble a b).floor = a / b := by
  by_cases ha : a = 0
  · subst ha
    simp [divDouble, Dyadic.floor]
  obtain ⟨j, hj, hle⟩ := divDouble_of_small a b (by omega) ha2 hb hb2
  rw [hj]
  simp only [Dyadic.floor, pow_zero, mul_one]
  have hP : 0 < 2 ^ j := Nat.two_pow_pos j
  have hbP : b < 2 * 2 ^ j := by
    have h1 : a * 2 ^ j ≤ (2 ^ 53 - 1) * 2 ^ j := Nat.mul_le_mul_right _ (by omega)
    have h2 : (2 ^ 53 - 1) * 2 ^ j + 2 ^ j = 2 ^ 52 * (2 * 2 ^ j) := by
      have : (2 : Nat) ^ 53 - 1 + 1 = 2 ^ 52 * 2 := by norm_num
      calc (2 ^ 53 - 1) * 2 ^ j + 2 ^ j = (2 ^ 53 - 1 + 1) * 2 ^ j := by ring
        _ = 2 ^ 52 * (2 * 2 ^ j) := by rw [this]; ring
    have h3 : 2 ^ 52 * b < 2 ^ 52 * (2 * 2 ^ j) := by omega
    exact Nat.lt_of_mul_lt_mul_left h3
  have hdm := Nat.div_add_mod a b
  have hmod := Nat.mod_lt a hb
  apply Nat.div_eq_of_lt_le
  · apply roundHalfEven_ge _ _ _ hb
    have : a / b * b ≤ a := Nat.div_mul_le_self a b
    calc a / b * 2 ^ j * b = a / b * b * 2 ^ j := by ring
      _ ≤ a * 2 ^ j := Nat.mul_le_mul_right _ this
  · apply roundHalfEven_lt _ _ _ hb
    have h1 : a + 1 ≤ (a / b + 1) * b := by
      have : (a / b + 1) * b = b * (a / b) + b := by ring
      omega
    have h2 : (a + 1) * 2 ^ j ≤ (a / b + 1) * b * 2 ^ j := Nat.mul_le_mul_right _ h1
    have h3 : (a + 1) * 2 ^ j = a * 2 ^ j + 2 ^ j := by ring
    have h4 : (a / b + 1) * b * 2 ^ j = (a / b + 1) * 2 ^ j * b := by ring
    omega


/-- The nearest integer, ties upwards, of the double quotient of `a < 2 ^ 52` by an
even `b`, is that of the exact quotient. -/
theorem nearest_divDouble (a c : Nat) (ha2 : a < 2 ^ 52) (hc : 0 < c) (hc2 : 2 * c < 2 ^ 53) :
    (2 * ((divDouble a (2 * c)).mantissa * 2 ^ (divDouble a (2 * c)).up) +
        2 ^ (divDouble a (2 * c)).down) / (2 * 2 ^ (divDouble a (2 * c)).down) =
      (a + c) / (2 * c) := by
  by_cases ha : a = 0
  · subst ha
    have : c / (2 * c) = 0 := Nat.div_eq_of_lt (by omega)
    simp [divDouble, this]
  obtain ⟨j, hj, hle⟩ := divDouble_of_small a (2 * c) (by omega) (by omega) (by omega) hc2
  rw [hj]
  simp only [pow_zero, mul_one]
  have hP : 0 < 2 ^ j := Nat.two_pow_pos j
  -- the scaling exceeds the divisor
  have hbP : 2 * c < 2 ^ j := by
    have h1 : a * 2 ^ j ≤ (2 ^ 52 - 1) * 2 ^ j := Nat.mul_le_mul_right _ (by omega)
    have h2 : (2 ^ 52 - 1) * 2 ^ j + 2 ^ j = 2 ^ 52 * 2 ^ j := by
      have : (2 : Nat) ^ 52 - 1 + 1 = 2 ^ 52 := by norm_num
      calc (2 ^ 52 - 1) * 2 ^ j + 2 ^ j = (2 ^ 52 - 1 + 1) * 2 ^ j := by ring
        _ = 2 ^ 52 * 2 ^ j := by rw [this]
    have h3 : 2 ^ 52 * (2 * c) < 2 ^ 52 * 2 ^ j := by omega
    exact Nat.lt_of_mul_lt_mul_left h3
  obtain ⟨q, hq⟩ : ∃ q, 2 ^ j = 2 * q := by
    cases j with
    | zero => simp at hbP; omega
    | succ j => exact ⟨2 ^ j, by rw [pow_succ]; ring⟩
  have hdm := Nat.div_add_mod (a + c) (2 * c)
  have hmod := Nat.mod_lt (a + c) (show 0 < 2 * c by omega)
  generalize hn : (a + c) / (2 * c) = n at hdm
  generalize hr : (a + c) % (2 * c) = r at hdm hmod
  rw [hq]
  apply Nat.div_eq_of_lt_le
  · -- n * (2 * (2 * q)) ≤ 2 * m + 2 * q
    have hm : n * (2 * q) ≤ roundHalfEven (a * (2 * q)) (2 * c) + q := by
      by_cases hn0 : n = 0
      · subst hn0; simp
      · obtain ⟨n', rfl⟩ : ∃ n', n = n' + 1 := ⟨n - 1, by omega⟩
        have hge : (2 * n' + 1) * q ≤ roundHalfEven (a * (2 * q)) (2 * c) := by
          apply roundHalfEven_ge _ _ _ (by omega)
          have h1 : (2 * n' + 1) * c ≤ a := by
            have : (2 * n' + 1) * c + c = 2 * c * (n' + 1) := by ring
            omega
          calc (2 * n' + 1) * q * (2 * c) = (2 * n' + 1) * c * (2 * q) := by ring
            _ ≤ a * (2 * q) := Nat.mul_le_mul_right _ h1
        have : (n' + 1) * (2 * q) = (2 * n' + 1) * q + q := by ring
        omega
    have : n * (2 * (2 * q)) = 2 * (n * (2 * q)) := by ring
    omega
  · -- 2 * m + 2 * q < (n + 1) * (2 * (2 * q))
    have hlt : roundHalfEven (a * (2 * q)) (2 * c) < (2 * n + 1) * q := by
      apply roundHalfEven_lt _ _ _ (by omega)
      have h1 : a + 1 ≤ (2 * n + 1) * c := by
        have : (2 * n + 1) * c = 2 * c * n + c := by ring
        omega
      have h2 : (a + 1) * (2 * q) ≤ (2 * n + 1) * c * (2 * q) := Nat.mul_le_mul_right _ h1
      have h3 : (a + 1) * (2 * q) = a * (2 * q) + 2 * q := by ring
      have h4 : (2 * n + 1) * c * (2 * q) = (2 * n + 1) * q * (2 * c) := by ring
      omega
    have : (n + 1) * (2 * (2 * q)) = 2 * ((2 * n + 1) * q) + 2 * q := by ring
    omega


theorem scalesFrom_mem : ∀ (fuel p v : Nat) (acc : List Nat), 0 < p →
    (∀ q ∈ acc, 0 < q ∧ q ≤ v) → ∀ q ∈ scalesFrom fuel p v acc, 0 < q ∧ q ≤ v := by
  intro fuel
  induction fuel with
  | zero => intro p v acc _ hacc q hq; exact hacc q hq
  | succ fuel ih =>
    intro p v acc hp hacc q hq
    unfold scalesFrom at hq
    by_cases hle : p ≤ v
    · rw [if_pos hle] at hq
      refine ih (10 * p) v (p :: acc) (by omega) ?_ q hq
      intro q' hq'
      rcases List.mem_cons.mp hq' with h | h
      · subst h; exact ⟨hp, hle⟩
      · exact hacc q' h
    · rw [if_neg hle] at hq
      exact hacc q hq

theorem searchScales_of_small (v : Nat) (hv : v < 2 ^ 52) :
    ∀ ps : List Nat, (∀ p ∈ ps, 0 < p ∧ p ≤ v) → searchScales v ps = v := by
  intro ps
  induction ps with
  | nil => intro _; rfl
  | cons p ps ih =>
    intro h
    obtain ⟨hp, hpv⟩ := h p (List.mem_cons_self _ _)
    have hlo : v / p * p ≤ v := Nat.div_mul_le_self v p
    have hhi : v < v / p * p + p := by
      have := Nat.div_add_mod v p
      have := Nat.mod_lt v hp
      have : p * (v / p) = v / p * p := Nat.mul_comm _ _
      omega
    have hdlo : toDouble (v / p * p) = some (v / p * p) := toDouble_of_lt _ (by omega)
    have hdhi : toDouble (v / p * p + p) = some (v / p * p + p) := toDouble_of_lt _ (by omega)
    unfold searchScales
    simp only [hdlo, hdhi, Option.some.injEq]
    have hne : ¬ v / p * p + p = v := by omega
    by_cases heq : v / p * p = v
    · rw [if_pos heq, if_neg hne]
      exact heq
    · rw [if_neg heq, if_neg hne]
      exact ih (fun q hq => h q (List.mem_cons_of_mem _ hq))

theorem numberToString_of_small (v : Nat) (hv : v < 2 ^ 52) : numberToString v = toString v := by
  have h : shortestDecimal v = v :=
    searchScales_of_small v hv _ (scalesFrom_mem 400 1 v [] (by omega) (by simp))
  unfold numberToString
  rw [h, if_pos (by omega)]

theorem toNumber_toString_of_le (s : Nat) (h : s ≤ 60) : toNumber (toString s) = s := by
  interval_cases s <;> rfl

theorem nearest_eq_specSeconds (ms : Nat) :
    (ms % 60000 + 500) / (2 * 500) = specSeconds ms := by
  unfold specSeconds
  simp only
  split <;> omega

theorem specSeconds_le (ms : Nat) : specSeconds ms ≤ 60 := by
  unfold specSeconds
  simp only
  split <;> omega

/-- C1: for every duration below `2 ^ 53` milliseconds the helper returns the
decimal minutes `floor(ms / 60000)`, a colon, a `0` exactly when the rounded seconds
are below 10, and the decimal seconds `round((ms mod 60000) / 1000)` with halves
rounded up; and 61000, 5000 and 600000 give `1:01`, `0:05` and `10:00`. -/
theorem millisToMinutesAndSeconds_eq_spec (ms : Nat) (h : ms < 2 ^ 53) :
    millisToMinutesAndSeconds ms = specDuration ms ∧
    millisToMinutesAndSeconds 61000 = "1:01" ∧
    millisToMinutesAndSeconds 5000 = "0:05" ∧
    millisToMinutesAndSeconds 600000 = "10:00" := by
  refine ⟨?_, by decide, by decide, by decide⟩
  have hmin : (divDouble ms 60000).floor = ms / 60000 :=
    floor_divDouble ms 60000 h (by omega) (by omega)
  have hsec : toFixed0 (divDouble (ms % 60000) 1000) = toString (specSeconds ms) := by
    unfold toFixed0
    have := nearest_divDouble (ms % 60000) 500 (by omega) (by omega) (by omega)
    rw [show (1000 : Nat) = 2 * 500 from rfl, this, nearest_eq_specSeconds]
  unfold millisToMinutesAndSeconds specDuration
  rw [toDouble_of_lt ms h]
  simp only [hmin, hsec, toNumber_toString_of_le _ (specSeconds_le ms)]
  rw [numberToString_of_small _ (by omega)]

/-- Beyond the integers that a double holds exactly the format is not the one of
the specification for every duration: for the duration `2 ^ 70` the quotient by
60000 is rounded to the double 19676527011956856, one more than the floor of the
exact quotient. -/
theorem millisToMinutesAndSeconds_large_counterexample :
    millisToMinutesAndSeconds (2 ^ 70) = "19676527011956856:03" ∧
    specDuration (2 ^ 70) = "19676527011956855:03" ∧
    ¬ ∀ ms : Nat, millisToMinutesAndSeconds ms = specDuration ms := by
  refine ⟨by decide, by decide, fun hall => ?_⟩
  exact absurd (hall (2 ^ 70)) (by decide)

/-- C6: a track of 59.5 seconds is rendered with the seconds value 60, and so is
one of 119.6 seconds: the rounded seconds are not carried into the minutes. -/
theorem millisToMinutesAndSeconds_sixty :
    millisToMinutesAndSeconds 59500 = "0:60" ∧
    millisToMinutesAndSeconds 119600 = "1:60" := by
  exact ⟨by decide, by decide⟩

/-! ## Track filtering -/

theorem mapTracks_filter (items : List TrackItem) :
    mapTracks (items.filter (fun item => item.track.isSome)) =
      .ok (items.filterMap (fun item => item.track.map specTrack)) := by
  induction items with
  | nil => rfl
  | cons item rest ih =>
    cases h : item.track with
    | none => simp [List.filter_cons, List.filterMap_cons, h, ih]
    | some track =>
      simp [List.filter_cons, List.filterMap_cons, h, mapTracks, toTrack, ih, specTrack]

/-- C8: for every tracks page the expression assigned to `playlistData.tracks`
succeeds, and its value is the entries with a present track object, in their
order, each mapped to (id, name, artist names joined with ", ", formatted
duration); it has as many elements as the page has entries with a track, and an
upsert stores exactly that sequence. One null entry and two valid ones give the
two tracks. -/
theorem importTracks_eq_filterMap :
    (∀ items : List TrackItem,
      importTracks items = .ok (items.filterMap (fun item => item.track.map specTrack)) ∧
      (items.filterMap (fun item => item.track.map specTrack)).length =
        items.countP (fun item => item.track.isSome)) ∧
    (∀ (store : List Playlist) (user : User) (item : PlaylistItem) (tracks : List Track)
        (now : Nat),
      (findOneAndUpdate store item.id (playlistDataOf user item tracks) now).2.tracks = tracks) ∧
    (∀ a b : SpotifyTrack,
      importTracks [⟨some a⟩, ⟨none⟩, ⟨some b⟩] = .ok [specTrack a, specTrack b]) := by
  refine ⟨fun items => ⟨mapTracks_filter items, ?_⟩, ?_, fun a b => ?_⟩
  · induction items with
    | nil => rfl
    | cons item rest ih =>
      cases h : item.track <;> simp [List.filterMap_cons, List.countP_cons, h, ih]
  · intro store user item tracks now
    induction store with
    | nil => rfl
    | cons doc docs ih =>
      unfold findOneAndUpdate
      split
      · rfl
      · exact ih
  · rw [importTracks, mapTracks_filter]; rfl

/-! ## Song of the day -/

theorem flatMap_eq_flattenedTracks (store : List Playlist) (userId : String) :
    (store.filter (fun pl => pl.owner._id == userId)).flatMap (fun pl => pl.tracks) =
      flattenedTracks store userId := by
  unfold flattenedTracks
  rw [List.flatMap_def]
  congr 2

theorem songOfTheDay_eq (store : List Playlist) (userId : String) (day : Nat) :
    songOfTheDay store userId day =
      if flattenedTracks store userId = [] then .status 404 "No tracks available"
      else .json (flattenedTracks store userId)[day % (flattenedTracks store userId).length]? := by
  unfold songOfTheDay
  simp only [flatMap_eq_flattenedTracks, List.length_eq_zero]

/-- C4: when the tracks of the playlists of a user, concatenated in
playlist-then-track order, are not empty, then on day of month `d` (any number,
the days 1 to 31 among them) the handler answers with the element at index
`d mod length` of that sequence, which is within bounds; for length 5, day 7
selects index 2 and day 5 index 0. -/
theorem songOfTheDay_selects (store : List Playlist) (userId : String) (d : Nat)
    (hne : flattenedTracks store userId ≠ []) :
    (∃ h : d % (flattenedTracks store userId).length < (flattenedTracks store userId).length,
      songOfTheDay store userId d =
        .json (some ((flattenedTracks store userId).get ⟨d % (flattenedTracks store userId).length, h⟩))) ∧
    ((flattenedTracks store userId).length = 5 →
      songOfTheDay store userId 7 = .json (flattenedTracks store userId)[2]? ∧
      songOfTheDay store userId 5 = .json (flattenedTracks store userId)[0]?) := by
  have hpos : 0 < (flattenedTracks store userId).length := List.length_pos.mpr hne
  refine ⟨⟨Nat.mod_lt _ hpos, ?_⟩, fun h5 => ?_⟩
  · rw [songOfTheDay_eq, if_neg hne, List.getElem?_eq_getElem (Nat.mod_lt _ hpos)]
    rfl
  · simp [songOfTheDay_eq, hne, h5]

/-- C9: the handler answers 404 exactly when the flattened track sequence of the
user is empty, which is when every playlist of the user has an empty track list
(none at all included); in every other case it answers with a track of the
sequence, never with an absent one. -/
theorem songOfTheDay_notFound_iff (store : List Playlist) (userId : String) (day : Nat) :
    (songOfTheDay store userId day = .status 404 "No tracks available" ↔
      flattenedTracks store userId = []) ∧
    (flattenedTracks store userId = [] ↔
      ∀ pl ∈ store, pl.owner._id = userId → pl.tracks = []) ∧
    (flattenedTracks store userId ≠ [] →
      ∃ track ∈ flattenedTracks store userId, songOfTheDay store userId day = .json (some track)) ∧
    songOfTheDay store userId day ≠ .json none ∧
    (∀ code message, songOfTheDay store userId day = .status code message →
      code = 404 ∧ flattenedTracks store userId = []) := by
  have hsome : flattenedTracks store userId ≠ [] →
      ∃ track ∈ flattenedTracks store userId,
        songOfTheDay store userId day = .json (some track) := by
    intro hne
    have hlt := Nat.mod_lt day (List.length_pos.mpr hne)
    refine ⟨(flattenedTracks store userId)[day % (flattenedTracks store userId).length],
      List.getElem_mem _, ?_⟩
    rw [songOfTheDay_eq, if_neg hne, List.getElem?_eq_getElem hlt]
  refine ⟨?_, ?_, hsome, ?_, ?_⟩
  · constructor
    · intro h
      by_contra hne
      obtain ⟨t, _, ht⟩ := hsome hne
      rw [ht] at h
      cases h
    · intro h
      rw [songOfTheDay_eq, if_pos h]
  · unfold flattenedTracks
    simp only [List.flatten_eq_nil_iff, List.mem_map, List.mem_filter, decide_eq_true_eq]
    constructor
    · intro h pl hpl ho
      exact h _ ⟨pl, ⟨hpl, ho⟩, rfl⟩
    · rintro h l ⟨pl, ⟨hpl, ho⟩, rfl⟩
      exact h pl hpl ho
  · by_cases hne : flattenedTracks store userId = []
    · rw [songOfTheDay_eq, if_pos hne]; simp
    · obtain ⟨t, _, ht⟩ := hsome hne
      rw [ht]; simp
  · intro code message h
    by_cases hne : flattenedTracks store userId = []
    · rw [songOfTheDay_eq, if_pos hne] at h
      cases h
      exact ⟨rfl, hne⟩
    · obtain ⟨t, _, ht⟩ := hsome hne
      rw [ht] at h
      cases h

/-! ## The import handler: calls -/

theorem importTracks_ok (items : List TrackItem) :
    importTracks items = .ok (items.filterMap (fun item => item.track.map specTrack)) :=
  mapTracks_filter items

theorem importLoop_cons_error (remote : Remote) (clock : Clock) (user : User) (k : Nat)
    (item : PlaylistItem) (rest : List PlaylistItem) (store : List Playlist) (e : String)
    (h : remote.tracks item.id (bearer user) = .error e) :
    importLoop remote clock user k (item :: rest) store =
      { imported := .error e, store := store, calls := [.listTracks item.id (bearer user)] } := by
  rw [importLoop]
  simp only [h]

theorem importLoop_cons_ok (remote : Remote) (clock : Clock) (user : User) (k : Nat)
    (item : PlaylistItem) (rest : List PlaylistItem) (store : List Playlist)
    (page : List TrackItem) (h : remote.tracks item.id (bearer user) = .ok page) :
    importLoop remote clock user k (item :: rest) store =
      { imported :=
          (importLoop remote clock user (k + 1) rest
            (findOneAndUpdate store item.id
              (playlistDataOf user item (page.filterMap (fun i => i.track.map specTrack)))
              (clock.insertedAt k)).1).imported.map
            (fun ps =>
              (findOneAndUpdate store item.id
                (playlistDataOf user item (page.filterMap (fun i => i.track.map specTrack)))
                (clock.insertedAt k)).2 :: ps)
        store :=
          (importLoop remote clock user (k + 1) rest
            (findOneAndUpdate store item.id
              (playlistDataOf user item (page.filterMap (fun i => i.track.map specTrack)))
              (clock.insertedAt k)).1).store
        calls :=
          .listTracks item.id (bearer user) :: .findOneAndUpdate item.id ::
            (importLoop remote clock user (k + 1) rest
              (findOneAndUpdate store item.id
                (playlistDataOf user item (page.filterMap (fun i => i.track.map specTrack)))
                (clock.insertedAt k)).1).calls } := by
  rw [importLoop]
  simp only [h, importTracks_ok]

theorem importLoop_calls (remote : Remote) (clock : Clock) (user : User)
    (items : List PlaylistItem) :
    ∀ (k : Nat) (store : List Playlist), ∀ c ∈ (importLoop remote clock user k items store).calls,
      (∃ id, c = .listTracks id (bearer user)) ∨ (∃ id, c = .findOneAndUpdate id) := by
  induction items with
  | nil => intro k store c hc; simp [importLoop] at hc
  | cons item rest ih =>
    intro k store c hc
    cases h : remote.tracks item.id (bearer user) with
    | error e =>
      rw [importLoop_cons_error _ _ _ _ _ _ _ e h] at hc
      simp only [List.mem_singleton] at hc
      exact Or.inl ⟨_, hc⟩
    | ok page =>
      rw [importLoop_cons_ok _ _ _ _ _ _ _ page h] at hc
      simp only [List.mem_cons] at hc
      rcases hc with hc | hc | hc
      · exact Or.inl ⟨_, hc⟩
      · exact Or.inr ⟨_, hc⟩
      · exact ih _ _ c hc

theorem importPlaylists_of_refresh_error (remote : Remote) (clock : Clock) (user : User)
    (store : List Playlist) (e : String) (calls : List Call)
    (h : refreshIfExpired remote clock user = (.error e, calls)) :
    importPlaylists remote clock user store =
      { response := importFailed, user := user, store := store, calls := calls } := by
  unfold importPlaylists
  rw [h]

theorem importPlaylists_of_list_error (remote : Remote) (clock : Clock) (user u : User)
    (store : List Playlist) (e : String) (calls : List Call)
    (h : refreshIfExpired remote clock user = (.ok u, calls))
    (hl : remote.playlists (bearer u) = .error e) :
    importPlaylists remote clock user store =
      { response := importFailed, user := u, store := store
        calls := calls ++ [.listPlaylists (bearer u)] } := by
  unfold importPlaylists
  rw [h]
  simp only [hl]

theorem importPlaylists_of_list_ok (remote : Remote) (clock : Clock) (user u : User)
    (store : List Playlist) (items : List PlaylistItem) (calls : List Call)
    (h : refreshIfExpired remote clock user = (.ok u, calls))
    (hl : remote.playlists (bearer u) = .ok items) :
    importPlaylists remote clock user store =
      { response :=
          match (importLoop remote clock u 0 items store).imported with
          | .ok imported => .json "Playlists imported" imported
          | .error _ => importFailed
        user := u
        store := (importLoop remote clock u 0 items store).store
        calls := calls ++ .listPlaylists (bearer u) :: (importLoop remote clock u 0 items store).calls } := by
  unfold importPlaylists
  rw [h]
  simp only [hl]

/-- The shape of every run of the handler: the calls of step 1, then, unless the
exchange was rejected, the playlist listing and the calls of the loop. -/
theorem importPlaylists_shape (remote : Remote) (clock : Clock) (user : User)
    (store : List Playlist) :
    ((∃ e, (refreshIfExpired remote clock user).1 = .error e) ∧
      (importPlaylists remote clock user store).calls = (refreshIfExpired remote clock user).2 ∧
      (importPlaylists remote clock user store).store = store ∧
      (importPlaylists remote clock user store).user = user ∧
      (importPlaylists remote clock user store).response = importFailed) ∨
    (∃ u, (refreshIfExpired remote clock user).1 = .ok u ∧
      (importPlaylists remote clock user store).user = u ∧
      (((∃ e, remote.playlists (bearer u) = .error e) ∧
        (importPlaylists remote clock user store).calls =
          (refreshIfExpired remote clock user).2 ++ [.listPlaylists (bearer u)] ∧
        (importPlaylists remote clock user store).store = store ∧
        (importPlaylists remote clock user store).response = importFailed) ∨
       (∃ items, remote.playlists (bearer u) = .ok items ∧
        (importPlaylists remote clock user store).calls =
          (refreshIfExpired remote clock user).2 ++
            .listPlaylists (bearer u) :: (importLoop remote clock u 0 items store).calls ∧
        (importPlaylists remote clock user store).store =
          (importLoop remote clock u 0 items store).store ∧
        (importPlaylists remote clock user store).response =
          match (importLoop remote clock u 0 items store).imported with
          | .ok imported => .json "Playlists imported" imported
          | .error _ => importFailed))) := by
  rcases hr : refreshIfExpired remote clock user with ⟨res, calls⟩
  cases res with
  | error e =>
    left
    rw [importPlaylists_of_refresh_error _ _ _ _ e calls hr]
    exact ⟨⟨e, rfl⟩, rfl, rfl, rfl, rfl⟩
  | ok u =>
    right
    refine ⟨u, rfl, ?_⟩
    cases hl : remote.playlists (bearer u) with
    | error e =>
      rw [importPlaylists_of_list_error _ _ _ u _ e calls hr hl]
      exact ⟨rfl, Or.inl ⟨⟨e, rfl⟩, rfl, rfl, rfl⟩⟩
    | ok items =>
      rw [importPlaylists_of_list_ok _ _ _ u _ items calls hr hl]
      exact ⟨rfl, Or.inr ⟨items, rfl, rfl, rfl, rfl⟩⟩

/-! ## The import handler: the refresh step -/

theorem refreshIfExpired_of_valid (remote : Remote) (clock : Clock) (user : User)
    (h : needsRefresh clock.newDate user = false) :
    refreshIfExpired remote clock user = (.ok user, []) := by
  unfold refreshIfExpired
  simp [h]

theorem refreshIfExpired_of_rejected (remote : Remote) (clock : Clock) (user : User) (e : String)
    (h : needsRefresh clock.newDate user = true)
    (he : remote.token user.refreshToken = .error e) :
    refreshIfExpired remote clock user = (.error e, [.tokenExchange user.refreshToken]) := by
  unfold refreshIfExpired
  simp [h, he]

theorem refreshIfExpired_of_renewed (remote : Remote) (clock : Clock) (user : User)
    (tr : TokenResponse) (h : needsRefresh clock.newDate user = true)
    (hok : remote.token user.refreshToken = .ok tr)
    (hdate : clock.dateNow + tr.expires_in * 1000 ≤ maxTimeValue) :
    refreshIfExpired remote clock user =
      (.ok { user with
              accessToken := some tr.access_token
              tokenExpiresAt := some (clock.dateNow + tr.expires_in * 1000) },
       [.tokenExchange user.refreshToken, .saveUser]) := by
  unfold refreshIfExpired
  simp [h, hok, hdate]

theorem refreshIfExpired_of_invalid (remote : Remote) (clock : Clock) (user : User)
    (tr : TokenResponse) (h : needsRefresh clock.newDate user = true)
    (hok : remote.token user.refreshToken = .ok tr)
    (hdate : ¬ clock.dateNow + tr.expires_in * 1000 ≤ maxTimeValue) :
    refreshIfExpired remote clock user =
      (.error "ValidationError", [.tokenExchange user.refreshToken, .saveUser]) := by
  unfold refreshIfExpired
  simp [h, hok, hdate]

/-- The calls of step 1: none for a valid token, else the exchange, followed by the
save when the exchange succeeded. -/
theorem refreshIfExpired_calls (remote : Remote) (clock : Clock) (user : User) :
    (needsRefresh clock.newDate user = false ∧ (refreshIfExpired remote clock user).2 = []) ∨
    (needsRefresh clock.newDate user = true ∧
      ((refreshIfExpired remote clock user).2 = [.tokenExchange user.refreshToken] ∨
       (refreshIfExpired remote clock user).2 = [.tokenExchange user.refreshToken, .saveUser])) := by
  cases hn : needsRefresh clock.newDate user with
  | false =>
    left
    rw [refreshIfExpired_of_valid remote clock user hn]
    exact ⟨rfl, rfl⟩
  | true =>
    right
    refine ⟨rfl, ?_⟩
    cases he : remote.token user.refreshToken with
    | error e =>
      rw [refreshIfExpired_of_rejected remote clock user e hn he]
      exact Or.inl rfl
    | ok tr =>
      by_cases hdate : clock.dateNow + tr.expires_in * 1000 ≤ maxTimeValue
      · rw [refreshIfExpired_of_renewed remote clock user tr hn he hdate]
        exact Or.inr rfl
      · rw [refreshIfExpired_of_invalid remote clock user tr hn he hdate]
        exact Or.inr rfl

/-- Every call of a run is a call of step 1 or, after a step 1 that left the user
`u`, a catalog call carrying the token of `u` or an upsert; and the calls of step 1
come first. -/
theorem importPlaylists_calls (remote : Remote) (clock : Clock) (user : User)
    (store : List Playlist) :
    (∃ rest, (importPlaylists remote clock user store).calls =
        (refreshIfExpired remote clock user).2 ++ rest ∧
      ∀ c ∈ rest, ∃ u, (refreshIfExpired remote clock user).1 = .ok u ∧
        (c = .listPlaylists (bearer u) ∨ (∃ id, c = .listTracks id (bearer u)) ∨
          (∃ id, c = .findOneAndUpdate id))) := by
  rcases importPlaylists_shape remote clock user store with
    ⟨_, hc, _⟩ | ⟨u, hu, _, ⟨_, hc, _⟩ | ⟨items, _, hc, _⟩⟩
  · exact ⟨[], by rw [hc, List.append_nil], by simp⟩
  · refine ⟨_, hc, ?_⟩
    intro c hmem
    simp only [List.mem_singleton] at hmem
    exact ⟨u, hu, Or.inl hmem⟩
  · refine ⟨_, hc, ?_⟩
    intro c hmem
    simp only [List.mem_cons] at hmem
    rcases hmem with hmem | hmem
    · exact ⟨u, hu, Or.inl hmem⟩
    · rcases importLoop_calls remote clock u items 0 store c hmem with h | h
      · exact ⟨u, hu, Or.inr (Or.inl h)⟩
      · exact ⟨u, hu, Or.inr (Or.inr h)⟩

theorem tokenExchange_mem_iff (remote : Remote) (clock : Clock) (user : User)
    (store : List Playlist) :
    (∃ rt, Call.tokenExchange rt ∈ (importPlaylists remote clock user store).calls) ↔
      needsRefresh clock.newDate user = true := by
  obtain ⟨rest, hc, hrest⟩ := importPlaylists_calls remote clock user store
  constructor
  · rintro ⟨rt, hmem⟩
    rw [hc, List.mem_append] at hmem
    rcases hmem with hmem | hmem
    · by_contra hn
      rw [refreshIfExpired_of_valid remote clock user (by simpa using hn)] at hmem
      simp at hmem
    · obtain ⟨u, _, h | ⟨_, h⟩ | ⟨_, h⟩⟩ := hrest _ hmem <;> cases h
  · intro h
    refine ⟨user.refreshToken, ?_⟩
    rw [hc, List.mem_append]
    left
    rcases refreshIfExpired_calls remote clock user with ⟨hv, _⟩ | ⟨_, h1 | h1⟩
    · rw [h] at hv; cases hv
    · rw [h1]; simp
    · rw [h1]; simp

/-- C3: for a credential with a concrete expiry instant, the handler issues the
token exchange if and only if the instant of the test is at or after the expiry:
it does at the expiry instant itself, and it does not when the expiry lies any
positive amount, one second included, in the future. -/
theorem refresh_iff_expired (remote : Remote) (clock : Clock) (user : User)
    (store : List Playlist) (expiresAt : Nat) (h : user.tokenExpiresAt = some expiresAt) :
    ((∃ rt, Call.tokenExchange rt ∈ (importPlaylists remote clock user store).calls) ↔
      clock.newDate ≥ expiresAt) ∧
    (expiresAt = clock.newDate →
      Call.tokenExchange user.refreshToken ∈ (importPlaylists remote clock user store).calls) ∧
    (∀ ahead, 0 < ahead → expiresAt = clock.newDate + ahead →
      ∀ rt, Call.tokenExchange rt ∉ (importPlaylists remote clock user store).calls) := by
  have hn : needsRefresh clock.newDate user = true ↔ clock.newDate ≥ expiresAt := by
    unfold needsRefresh
    rw [h]
    simp
  have hiff := (tokenExchange_mem_iff remote clock user store).trans hn
  refine ⟨hiff, ?_, ?_⟩
  · intro heq
    have hneed : needsRefresh clock.newDate user = true := hn.mpr (by omega)
    obtain ⟨rest, hc, _⟩ := importPlaylists_calls remote clock user store
    rw [hc, List.mem_append]
    left
    rcases refreshIfExpired_calls remote clock user with ⟨hv, _⟩ | ⟨_, h1 | h1⟩
    · rw [hneed] at hv; cases hv
    · rw [h1]; simp
    · rw [h1]; simp
  · intro ahead hpos heq rt hmem
    have := hiff.mp ⟨rt, hmem⟩
    omega

/-- C10: on a successful renewal, that is when the exchange is made and succeeds
with `access_token` and `expires_in` and the new expiry
`Date.now() + expires_in * 1000` is a time value a `Date` holds (so that the save is
accepted), the user document after the handler has that access token and that
expiry, is saved, and has every other field (refresh token, spotify id, display
name, email, avatar url, creation instant, id) as before. -/
theorem refresh_frame (remote : Remote) (clock : Clock) (user : User) (store : List Playlist)
    (tr : TokenResponse) (hexp : needsRefresh clock.newDate user = true)
    (hok : remote.token user.refreshToken = .ok tr)
    (hdate : clock.dateNow + tr.expires_in * 1000 ≤ maxTimeValue) :
    (importPlaylists remote clock user store).user =
      { user with
        accessToken := some tr.access_token
        tokenExpiresAt := some (clock.dateNow + tr.expires_in * 1000) } ∧
    (importPlaylists remote clock user store).user.accessToken = some tr.access_token ∧
    (importPlaylists remote clock user store).user.tokenExpiresAt =
      some (clock.dateNow + tr.expires_in * 1000) ∧
    (importPlaylists remote clock user store).user.refreshToken = user.refreshToken ∧
    (importPlaylists remote clock user store).user.spotifyId = user.spotifyId ∧
    (importPlaylists remote clock user store).user.displayName = user.displayName ∧
    (importPlaylists remote clock user store).user.email = user.email ∧
    (importPlaylists remote clock user store).user.avatarUrl = user.avatarUrl ∧
    (importPlaylists remote clock user store).user.createdAt = user.createdAt ∧
    (importPlaylists remote clock user store).user._id = user._id ∧
    Call.saveUser ∈ (importPlaylists remote clock user store).calls := by
  have hr := refreshIfExpired_of_renewed remote clock user tr hexp hok hdate
  have hu : (importPlaylists remote clock user store).user =
      { user with
        accessToken := some tr.access_token
        tokenExpiresAt := some (clock.dateNow + tr.expires_in * 1000) } := by
    rcases importPlaylists_shape remote clock user store with
      ⟨⟨e, he⟩, _⟩ | ⟨u, hu, huser, _⟩
    · rw [hr] at he; cases he
    · rw [hr] at hu
      cases hu
      exact huser
  refine ⟨hu, ?_, ?_, ?_, ?_, ?_, ?_, ?_, ?_, ?_, ?_⟩
  all_goals first
    | (rw [hu])
    | skip
  obtain ⟨rest, hc, _⟩ := importPlaylists_calls remote clock user store
  rw [hc, hr]
  simp

/-- When the exchange succeeds with a lifetime that takes the new expiry beyond
the time values of a `Date`, the save is rejected: the handler answers with the
failure after the exchange and the attempted save, and the stored user and the
store are as before. -/
theorem import_fails_on_invalid_expiry (remote : Remote) (clock : Clock) (user : User)
    (store : List Playlist) (tr : TokenResponse)
    (hexp : needsRefresh clock.newDate user = true)
    (hok : remote.token user.refreshToken = .ok tr)
    (hdate : ¬ clock.dateNow + tr.expires_in * 1000 ≤ maxTimeValue) :
    importPlaylists remote clock user store =
      { response := importFailed, user := user, store := store
        calls := [.tokenExchange user.refreshToken, .saveUser] } :=
  importPlaylists_of_refresh_error remote clock user store "ValidationError" _
    (refreshIfExpired_of_invalid remote clock user tr hexp hok hdate)

/-- C7: a credential whose expiry is null or at or before the instant of the test
is refreshed first: the token exchange is the first call of the handler; when
the exchange is rejected it is the only call, the handler answers with the failure
and the store is untouched; when it succeeds, every catalog call of the run
(playlist listing and track listings) carries the access token it returned. -/
theorem stale_credential_refreshed_first (remote : Remote) (clock : Clock) (user : User)
    (store : List Playlist)
    (h : user.tokenExpiresAt = none ∨
      ∃ expiresAt, user.tokenExpiresAt = some expiresAt ∧ expiresAt ≤ clock.newDate) :
    (∃ rest, (importPlaylists remote clock user store).calls =
        .tokenExchange user.refreshToken :: rest ∧
      ∀ c ∈ rest, ∀ rt, c ≠ .tokenExchange rt) ∧
    (∀ e, remote.token user.refreshToken = .error e →
      (importPlaylists remote clock user store).calls = [.tokenExchange user.refreshToken] ∧
      (importPlaylists remote clock user store).response = importFailed ∧
      (importPlaylists remote clock user store).store = store) ∧
    (∀ tr, remote.token user.refreshToken = .ok tr →
      ∀ c ∈ (importPlaylists remote clock user store).calls, ∀ a,
        c.authorization? = some a → a = "Bearer " ++ tr.access_token) := by
  have hneed : needsRefresh clock.newDate user = true := by
    unfold needsRefresh
    rcases h with h | ⟨t, h, hle⟩
    · rw [h]; simp
    · rw [h]; simpa using hle
  obtain ⟨rest, hc, hrest⟩ := importPlaylists_calls remote clock user store
  have hnot : ∀ c ∈ rest, ∀ rt, c ≠ .tokenExchange rt := by
    intro c hmem rt heq
    obtain ⟨u, _, h | ⟨_, h⟩ | ⟨_, h⟩⟩ := hrest c hmem <;> rw [heq] at h <;> cases h
  refine ⟨?_, ?_, ?_⟩
  · rcases refreshIfExpired_calls remote clock user with ⟨hv, _⟩ | ⟨_, h1 | h1⟩
    · rw [hneed] at hv; cases hv
    · rw [h1] at hc
      exact ⟨rest, by simpa using hc, hnot⟩
    · rw [h1] at hc
      refine ⟨.saveUser :: rest, by simpa using hc, ?_⟩
      intro c hmem rt
      rcases List.mem_cons.mp hmem with hs | hmem
      · rw [hs]; intro hcontra; cases hcontra
      · exact hnot c hmem rt
  · intro e he
    have hr := refreshIfExpired_of_rejected remote clock user e hneed he
    rw [importPlaylists_of_refresh_error remote clock user store e _ hr]
    exact ⟨rfl, rfl, rfl⟩
  · intro tr hok c hmem a ha
    rw [hc, List.mem_append] at hmem
    rcases hmem with hmem | hmem
    · rcases refreshIfExpired_calls remote clock user with ⟨_, h1⟩ | ⟨_, h1 | h1⟩ <;>
        rw [h1] at hmem <;>
        simp only [List.mem_cons, List.mem_singleton, List.not_mem_nil, or_false] at hmem
      · rw [hmem] at ha; cases ha
      · rcases hmem with hmem | hmem <;> rw [hmem] at ha <;> cases ha
    · obtain ⟨u, hu, hcase⟩ := hrest c hmem
      by_cases hdate : clock.dateNow + tr.expires_in * 1000 ≤ maxTimeValue
      · rw [refreshIfExpired_of_renewed remote clock user tr hneed hok hdate] at hu
        cases hu
        rcases hcase with h | ⟨_, h⟩ | ⟨_, h⟩ <;> rw [h] at ha <;> cases ha <;> rfl
      · rw [refreshIfExpired_of_invalid remote clock user tr hneed hok hdate] at hu
        cases hu

/-! ## The import handler: the store -/

theorem rowsWith_cons (doc : Playlist) (docs : List Playlist) (id : String) :
    rowsWith (doc :: docs) id =
      if doc.spotifyPlaylistId = id then doc :: rowsWith docs id else rowsWith docs id := by
  unfold rowsWith
  by_cases h : doc.spotifyPlaylistId = id <;> simp [List.filter_cons, h]

/-- The rows of an id after an upsert whose data carries the id of its query. -/
theorem rowsWith_findOneAndUpdate (data : PlaylistData) (now : Nat) (id : String)
    (store : List Playlist) :
    rowsWith (findOneAndUpdate store data.spotifyPlaylistId data now).1 id =
      if id = data.spotifyPlaylistId then
        match rowsWith store id with
        | [] => [newDocument data now]
        | doc :: rest => applySet doc data :: rest
      else rowsWith store id := by
  induction store with
  | nil =>
    by_cases h : id = data.spotifyPlaylistId
    · simp [findOneAndUpdate, rowsWith, newDocument, h]
    · have h2 : ¬ data.spotifyPlaylistId = id := fun hh => h hh.symm
      simp [findOneAndUpdate, rowsWith, newDocument, h, h2]
  | cons doc docs ih =>
    unfold findOneAndUpdate
    by_cases hq : doc.spotifyPlaylistId = data.spotifyPlaylistId
    · simp only [hq, if_true]
      by_cases h : id = data.spotifyPlaylistId
      · subst h
        simp [rowsWith_cons, applySet, hq]
      · have h2 : ¬ data.spotifyPlaylistId = id := fun hh => h hh.symm
        simp [rowsWith_cons, applySet, hq, h, h2]
    · simp only [hq, if_false]
      rw [rowsWith_cons, ih]
      by_cases h : id = data.spotifyPlaylistId
      · subst h
        simp [rowsWith_cons, hq]
      · simp [rowsWith_cons, h]

theorem Keeps.refl (s : List Playlist) : Keeps s s := by
  intro id
  refine ⟨fun h => by simp [h], fun doc rest h => ⟨doc, h, rfl, rfl, rfl⟩⟩

theorem Keeps.trans {s t u : List Playlist} (h1 : Keeps s t) (h2 : Keeps t u) : Keeps s u := by
  intro id
  constructor
  · intro hs
    have hle := (h1 id).1 hs
    cases ht : rowsWith t id with
    | nil => exact (h2 id).1 ht
    | cons doc rest =>
      obtain ⟨doc2, hu, _⟩ := (h2 id).2 doc rest ht
      rw [ht] at hle
      rw [hu]
      simpa using hle
  · intro doc rest hs
    obtain ⟨doc2, ht, hc, hl, hm⟩ := (h1 id).2 doc rest hs
    obtain ⟨doc3, hu, hc3, hl3, hm3⟩ := (h2 id).2 doc2 rest ht
    exact ⟨doc3, hu, hc3.trans hc, hl3.trans hl, hm3.trans hm⟩

theorem Keeps.uniqueIds {s t : List Playlist} (h : Keeps s t) (hs : UniqueIds s) :
    UniqueIds t := by
  intro id
  cases hrows : rowsWith s id with
  | nil => exact (h id).1 hrows
  | cons doc rest =>
    obtain ⟨doc2, ht, _⟩ := (h id).2 doc rest hrows
    have := hs id
    rw [hrows] at this
    rw [ht]
    simpa using this

theorem Keeps.findOneAndUpdate (store : List Playlist) (data : PlaylistData) (now : Nat) :
    Keeps store (findOneAndUpdate store data.spotifyPlaylistId data now).1 := by
  intro id
  rw [rowsWith_findOneAndUpdate]
  by_cases h : id = data.spotifyPlaylistId
  · simp only [h, if_true]
    constructor
    · intro hs
      rw [hs]
      simp
    · intro doc rest hs
      rw [hs]
      exact ⟨applySet doc data, rfl, rfl, rfl, rfl⟩
  · simp only [h, if_false]
    exact ⟨fun hs => by simp [hs], fun doc rest hs => ⟨doc, hs, rfl, rfl, rfl⟩⟩

theorem rowsWith_findOneAndUpdate_ne_nil (store : List Playlist) (data : PlaylistData)
    (now : Nat) :
    rowsWith (findOneAndUpdate store data.spotifyPlaylistId data now).1
      data.spotifyPlaylistId ≠ [] := by
  rw [rowsWith_findOneAndUpdate]
  simp only [if_true]
  cases rowsWith store data.spotifyPlaylistId <;> simp

theorem findOneAndUpdate_id (store : List Playlist) (query : String) (data : PlaylistData)
    (now : Nat) :
    (findOneAndUpdate store query data now).2.spotifyPlaylistId = data.spotifyPlaylistId := by
  induction store with
  | nil => rfl
  | cons doc docs ih =>
    unfold findOneAndUpdate
    split
    · rfl
    · exact ih

theorem Keeps.importLoop (remote : Remote) (clock : Clock) (user : User)
    (items : List PlaylistItem) :
    ∀ (k : Nat) (store : List Playlist),
      Keeps store (importLoop remote clock user k items store).store := by
  induction items with
  | nil => intro k store; exact Keeps.refl store
  | cons item rest ih =>
    intro k store
    cases h : remote.tracks item.id (bearer user) with
    | error e =>
      rw [importLoop_cons_error _ _ _ _ _ _ _ e h]
      exact Keeps.refl store
    | ok page =>
      rw [importLoop_cons_ok _ _ _ _ _ _ _ page h]
      exact Keeps.trans
        (Keeps.findOneAndUpdate store
          (playlistDataOf user item (page.filterMap (fun i => i.track.map specTrack)))
          (clock.insertedAt k))
        (ih _ _)

/-- Every id the loop upserts has a row in the store the loop leaves. -/
theorem importLoop_upserted_present (remote : Remote) (clock : Clock) (user : User)
    (items : List PlaylistItem) :
    ∀ (k : Nat) (store : List Playlist) (id : String),
      Call.findOneAndUpdate id ∈ (importLoop remote clock user k items store).calls →
      rowsWith (importLoop remote clock user k items store).store id ≠ [] := by
  induction items with
  | nil => intro k store id hmem; simp [importLoop] at hmem
  | cons item rest ih =>
    intro k store id
    cases h : remote.tracks item.id (bearer user) with
    | error e =>
      rw [importLoop_cons_error _ _ _ _ _ _ _ e h]
      intro hmem
      simp at hmem
    | ok page =>
      rw [importLoop_cons_ok _ _ _ _ _ _ _ page h]
      intro hmem
      simp only [List.mem_cons] at hmem
      rcases hmem with hmem | hmem | hmem
      · cases hmem
      · cases hmem
        have hne := rowsWith_findOneAndUpdate_ne_nil store
          (playlistDataOf user item (page.filterMap (fun i => i.track.map specTrack)))
          (clock.insertedAt k)
        have hk := Keeps.importLoop remote clock user rest (k + 1)
          (findOneAndUpdate store item.id
            (playlistDataOf user item (page.filterMap (fun i => i.track.map specTrack)))
            (clock.insertedAt k)).1
        cases hrows : rowsWith (findOneAndUpdate store item.id
            (playlistDataOf user item (page.filterMap (fun i => i.track.map specTrack)))
            (clock.insertedAt k)).1 item.id with
        | nil => exact absurd hrows hne
        | cons doc more =>
          obtain ⟨doc2, h2, _⟩ := (hk item.id).2 doc more hrows
          simp only
          rw [h2]
          simp
      · exact ih _ _ id hmem

/-- Every document the loop returns was upserted by it. -/
theorem importLoop_imported_upserted (remote : Remote) (clock : Clock) (user : User)
    (items : List PlaylistItem) :
    ∀ (k : Nat) (store : List Playlist) (imported : List Playlist),
      (importLoop remote clock user k items store).imported = .ok imported →
      ∀ doc ∈ imported, Call.findOneAndUpdate doc.spotifyPlaylistId ∈
        (importLoop remote clock user k items store).calls := by
  induction items with
  | nil =>
    intro k store imported h doc hdoc
    simp only [importLoop] at h
    cases h
    simp at hdoc
  | cons item rest ih =>
    intro k store imported
    cases h : remote.tracks item.id (bearer user) with
    | error e =>
      rw [importLoop_cons_error _ _ _ _ _ _ _ e h]
      intro himp
      cases himp
    | ok page =>
      rw [importLoop_cons_ok _ _ _ _ _ _ _ page h]
      intro himp doc hdoc
      simp only at himp
      cases hl : (importLoop remote clock user (k + 1) rest
          (findOneAndUpdate store item.id
            (playlistDataOf user item (page.filterMap (fun i => i.track.map specTrack)))
            (clock.insertedAt k)).1).imported with
      | error e => rw [hl] at himp; cases himp
      | ok later =>
        rw [hl] at himp
        cases himp
        rcases List.mem_cons.mp hdoc with hd | hd
        · rw [hd, findOneAndUpdate_id]
          simp [playlistDataOf]
        · have := ih _ _ later hl doc hd
          simp only [List.mem_cons]
          exact Or.inr (Or.inr this)

/-! ## Abort on the first failing track listing -/

theorem importLoop_completed (remote : Remote) (clock : Clock) (user : User)
    (items : List PlaylistItem) :
    ∀ (k : Nat) (store : List Playlist),
      (∀ item ∈ items, ∃ page, remote.tracks item.id (bearer user) = .ok page) →
      (∃ docs, (importLoop remote clock user k items store).imported = .ok docs ∧
        docs.length = items.length) ∧
      (importLoop remote clock user k items store).calls = completedCalls user items := by
  induction items with
  | nil => intro k store _; exact ⟨⟨[], rfl, rfl⟩, rfl⟩
  | cons item rest ih =>
    intro k store hall
    obtain ⟨page, hpage⟩ := hall item (List.mem_cons_self _ _)
    rw [importLoop_cons_ok _ _ _ _ _ _ _ page hpage]
    obtain ⟨⟨docs, hdocs, hlen⟩, hcalls⟩ := ih (k + 1)
      (findOneAndUpdate store item.id
        (playlistDataOf user item (page.filterMap (fun i => i.track.map specTrack)))
        (clock.insertedAt k)).1
      (fun it hit => hall it (List.mem_cons_of_mem _ hit))
    refine ⟨⟨(findOneAndUpdate store item.id
        (playlistDataOf user item (page.filterMap (fun i => i.track.map specTrack)))
        (clock.insertedAt k)).2 :: docs, ?_, ?_⟩, ?_⟩
    · simp only [hdocs]
      rfl
    · simp [hlen]
    · simp only [hcalls, completedCalls, List.flatMap_cons, List.cons_append, List.nil_append]

theorem importLoop_abort (remote : Remote) (clock : Clock) (user : User)
    (failing : PlaylistItem) (after : List PlaylistItem) (e : String)
    (hfail : remote.tracks failing.id (bearer user) = .error e) (before : List PlaylistItem) :
    ∀ (k : Nat) (store : List Playlist),
      (∀ item ∈ before, ∃ page, remote.tracks item.id (bearer user) = .ok page) →
      (importLoop remote clock user k (before ++ failing :: after) store).imported = .error e ∧
      (importLoop remote clock user k (before ++ failing :: after) store).store =
        (importLoop remote clock user k before store).store ∧
      (importLoop remote clock user k (before ++ failing :: after) store).calls =
        completedCalls user before ++ [.listTracks failing.id (bearer user)] := by
  induction before with
  | nil =>
    intro k store _
    rw [List.nil_append, importLoop_cons_error _ _ _ _ _ _ _ e hfail]
    exact ⟨rfl, rfl, rfl⟩
  | cons item rest ih =>
    intro k store hall
    obtain ⟨page, hpage⟩ := hall item (List.mem_cons_self _ _)
    rw [List.cons_append, importLoop_cons_ok _ _ _ _ _ _ _ page hpage,
      importLoop_cons_ok _ _ _ _ _ _ _ page hpage]
    obtain ⟨himp, hstore, hcalls⟩ := ih (k + 1)
      (findOneAndUpdate store item.id
        (playlistDataOf user item (page.filterMap (fun i => i.track.map specTrack)))
        (clock.insertedAt k)).1
      (fun it hit => hall it (List.mem_cons_of_mem _ hit))
    refine ⟨?_, hstore, ?_⟩
    · simp only [himp]
      rfl
    · simp only [hcalls, completedCalls, List.flatMap_cons, List.cons_append, List.nil_append]

/-- C5: when the provider lists the playlists `before ++ failing :: after`, answers
the track listing of each playlist of `before` and rejects the one of `failing`
(the k-th for k = length of `before` + 1), the handler answers with the failure,
which carries no playlist list; the store is the one left by the completed
upserts of `before`, each of which has its row in it; and the calls end with the
rejected track listing of `failing`: after the track listing and the upsert of
each playlist of `before`, no upsert is made for `failing` and no track listing or
upsert for a playlist of `after`. -/
theorem import_aborts_on_track_failure (remote : Remote) (clock : Clock) (user u : User)
    (store : List Playlist) (before after : List PlaylistItem) (failing : PlaylistItem)
    (e : String)
    (hrefresh : (refreshIfExpired remote clock user).1 = .ok u)
    (hlist : remote.playlists (bearer u) = .ok (before ++ failing :: after))
    (hbefore : ∀ item ∈ before, ∃ page, remote.tracks item.id (bearer u) = .ok page)
    (hfail : remote.tracks failing.id (bearer u) = .error e) :
    (importPlaylists remote clock user store).response = .status 500 "Failed to import playlists" ∧
    (importPlaylists remote clock user store).store =
      (importLoop remote clock u 0 before store).store ∧
    (∃ docs, (importLoop remote clock u 0 before store).imported = .ok docs ∧
      docs.length = before.length) ∧
    (∀ item ∈ before, rowsWith (importPlaylists remote clock user store).store item.id ≠ []) ∧
    (importPlaylists remote clock user store).calls =
      (refreshIfExpired remote clock user).2 ++
        .listPlaylists (bearer u) ::
          (before.flatMap
              (fun item => [.listTracks item.id (bearer u), .findOneAndUpdate item.id]) ++
            [.listTracks failing.id (bearer u)]) := by
  obtain ⟨himp, hstore, hcalls⟩ :=
    importLoop_abort remote clock u failing after e hfail before 0 store hbefore
  obtain ⟨hdocs, hdone⟩ := importLoop_completed remote clock u before 0 store hbefore
  have hrun := importPlaylists_of_list_ok remote clock user u store (before ++ failing :: after)
    (refreshIfExpired remote clock user).2 (by rw [← hrefresh]) hlist
  rw [hrun]
  refine ⟨?_, hstore, hdocs, ?_, ?_⟩
  · simp only [himp]
    rfl
  · intro item hitem
    simp only [hstore]
    apply importLoop_upserted_present
    rw [hdone]
    simp only [completedCalls, List.mem_flatMap]
    exact ⟨item, hitem, by simp⟩
  · simp only [hcalls]
    rfl

/-! ## Idempotent import -/

theorem importLoop_calls_congr (remote : Remote) (c1 c2 : Clock) (user : User)
    (items : List PlaylistItem) :
    ∀ (k1 k2 : Nat) (s1 s2 : List Playlist),
      (importLoop remote c1 user k1 items s1).calls =
        (importLoop remote c2 user k2 items s2).calls := by
  induction items with
  | nil => intro k1 k2 s1 s2; rfl
  | cons item rest ih =>
    intro k1 k2 s1 s2
    cases h : remote.tracks item.id (bearer user) with
    | error e =>
      rw [importLoop_cons_error _ _ _ _ _ _ _ e h, importLoop_cons_error _ _ _ _ _ _ _ e h]
    | ok page =>
      rw [importLoop_cons_ok _ _ _ _ _ _ _ page h, importLoop_cons_ok _ _ _ _ _ _ _ page h]
      simp only
      rw [ih (k1 + 1) (k2 + 1)]

theorem Keeps.importPlaylists (remote : Remote) (clock : Clock) (user : User)
    (store : List Playlist) : Keeps store (importPlaylists remote clock user store).store := by
  rcases importPlaylists_shape remote clock user store with
    ⟨_, _, hs, _⟩ | ⟨u, _, _, ⟨_, _, hs, _⟩ | ⟨items, _, _, hs, _⟩⟩
  · rw [hs]; exact Keeps.refl store
  · rw [hs]; exact Keeps.refl store
  · rw [hs]; exact Keeps.importLoop remote clock u items 0 store

/-- A run that upserts an id listed the playlists and ran the loop. -/
theorem importPlaylists_of_upsert (remote : Remote) (clock : Clock) (user : User)
    (store : List Playlist) (id : String)
    (hmem : Call.findOneAndUpdate id ∈ (importPlaylists remote clock user store).calls) :
    ∃ items, remote.playlists (bearer (importPlaylists remote clock user store).user) = .ok items ∧
      Call.findOneAndUpdate id ∈
        (importLoop remote clock (importPlaylists remote clock user store).user 0 items store).calls ∧
      (importPlaylists remote clock user store).store =
        (importLoop remote clock (importPlaylists remote clock user store).user 0 items store).store := by
  have hstep : ∀ c ∈ (refreshIfExpired remote clock user).2, c ≠ Call.findOneAndUpdate id := by
    intro c hc heq
    rw [heq] at hc
    rcases refreshIfExpired_calls remote clock user with ⟨_, h1⟩ | ⟨_, h1 | h1⟩ <;>
      rw [h1] at hc <;> simp at hc
  rcases importPlaylists_shape remote clock user store with
    ⟨_, hc, _⟩ | ⟨u, _, hu, ⟨_, hc, _⟩ | ⟨items, hl, hc, hs, _⟩⟩
  · rw [hc] at hmem
    exact absurd rfl (hstep _ hmem)
  · rw [hc, List.mem_append] at hmem
    rcases hmem with hmem | hmem
    · exact absurd rfl (hstep _ hmem)
    · simp at hmem
  · rw [hc, List.mem_append] at hmem
    rw [hu]
    refine ⟨items, hl, ?_, hs⟩
    rcases hmem with hmem | hmem
    · exact absurd rfl (hstep _ hmem)
    · rcases List.mem_cons.mp hmem with hmem | hmem
      · cases hmem
      · exact hmem

/-- C2: on a store with at most one row per `spotifyPlaylistId`, after two imports
in succession against the same provider, every id that the first import upserted
has exactly one row after the first import and exactly one after the second, with
the same `createdAt`, `likes` and `commentsCount`; the ids upserted are those of
the playlists that a successful first import returns; and a second import that
needs no refresh upserts every id again. -/
theorem import_twice_idempotent (remote : Remote) (clock1 clock2 : Clock) (user : User)
    (store : List Playlist) (h : UniqueIds store) :
    (∀ id, Call.findOneAndUpdate id ∈ (importPlaylists remote clock1 user store).calls →
      ∃ doc1 doc2,
        rowsWith (importPlaylists remote clock1 user store).store id = [doc1] ∧
        rowsWith (importPlaylists remote clock2 (importPlaylists remote clock1 user store).user
          (importPlaylists remote clock1 user store).store).store id = [doc2] ∧
        doc2.createdAt = doc1.createdAt ∧ doc2.likes = doc1.likes ∧
        doc2.commentsCount = doc1.commentsCount) ∧
    (∀ message playlists,
      (importPlaylists remote clock1 user store).response = .json message playlists →
      ∀ doc ∈ playlists, Call.findOneAndUpdate doc.spotifyPlaylistId ∈
        (importPlaylists remote clock1 user store).calls) ∧
    (needsRefresh clock2.newDate (importPlaylists remote clock1 user store).user = false →
      ∀ id, Call.findOneAndUpdate id ∈ (importPlaylists remote clock1 user store).calls →
        Call.findOneAndUpdate id ∈
          (importPlaylists remote clock2 (importPlaylists remote clock1 user store).user
            (importPlaylists remote clock1 user store).store).calls) := by
  refine ⟨?_, ?_, ?_⟩
  · intro id hmem
    have hk1 := Keeps.importPlaylists remote clock1 user store
    have hu1 := hk1.uniqueIds h
    have hk2 := Keeps.importPlaylists remote clock2 (importPlaylists remote clock1 user store).user
      (importPlaylists remote clock1 user store).store
    obtain ⟨items, _, hloop, hs⟩ := importPlaylists_of_upsert remote clock1 user store id hmem
    have hne := importLoop_upserted_present remote clock1 _ items 0 store id hloop
    rw [← hs] at hne
    cases hrows : rowsWith (importPlaylists remote clock1 user store).store id with
    | nil => exact absurd hrows hne
    | cons doc1 rest =>
      have hlen := hu1 id
      rw [hrows] at hlen
      have hrest : rest = [] := by
        cases rest with
        | nil => rfl
        | cons _ _ => simp at hlen
      subst hrest
      obtain ⟨doc2, h2, hc, hl, hm⟩ := (hk2 id).2 doc1 [] hrows
      exact ⟨doc1, doc2, rfl, h2, hc, hl, hm⟩
  · intro message playlists hresp doc hdoc
    rcases importPlaylists_shape remote clock1 user store with
      ⟨_, _, _, _, hr⟩ | ⟨u, _, _, ⟨_, _, _, hr⟩ | ⟨items, _, hc, _, hr⟩⟩
    · rw [hr] at hresp; cases hresp
    · rw [hr] at hresp; cases hresp
    · rw [hr] at hresp
      cases himp : (importLoop remote clock1 u 0 items store).imported with
      | error e => rw [himp] at hresp; cases hresp
      | ok imported =>
        rw [himp] at hresp
        cases hresp
        rw [hc, List.mem_append]
        right
        exact List.mem_cons_of_mem _
          (importLoop_imported_upserted remote clock1 u items 0 store _ himp doc hdoc)
  · intro hvalid id hmem
    obtain ⟨items, hl, hloop, _⟩ := importPlaylists_of_upsert remote clock1 user store id hmem
    have hr := refreshIfExpired_of_valid remote clock2 _ hvalid
    rw [importPlaylists_of_list_ok remote clock2 _ _ _ items [] hr hl]
    simp only [List.nil_append, List.mem_cons]
    right
    rw [importLoop_calls_congr remote clock2 clock1 _ items 0 0 _ store]
    exact hloop

/-! ## The theorems at the example data -/

theorem uniqueIds_nil : UniqueIds [] := by
  intro id
  simp [rowsWith]

theorem songOfTheDay_selects_witness :
    flattenedTracks exampleStore "u1" ≠ [] ∧
    songOfTheDay exampleStore "u1" 7 = .json (flattenedTracks exampleStore "u1")[2]? ∧
    songOfTheDay exampleStore "u1" 5 = .json (flattenedTracks exampleStore "u1")[0]? :=
  ⟨by decide, (songOfTheDay_selects exampleStore "u1" 7 (by decide)).2 (by decide)⟩

theorem refresh_iff_expired_witness :
    exampleUser.tokenExpiresAt = some 1000 ∧
    ((∃ rt, Call.tokenExchange rt ∈
        (importPlaylists exampleRemote exampleClock exampleUser []).calls) ↔
      exampleClock.newDate ≥ 1000) :=
  ⟨rfl, (refresh_iff_expired exampleRemote exampleClock exampleUser [] 1000 rfl).1⟩

theorem refresh_frame_witness :
    needsRefresh exampleClock.newDate exampleUser = true ∧
    exampleClock.dateNow + 3600 * 1000 ≤ maxTimeValue ∧
    (importPlaylists exampleRemote exampleClock exampleUser []).user = renewedUser :=
  ⟨by decide, by decide,
    (refresh_frame exampleRemote exampleClock exampleUser [] ⟨"new", 3600⟩ (by decide) rfl
      (by decide)).1⟩

theorem import_long_lived_example :
    importPlaylists longLivedRemote exampleClock exampleUser [] =
      { response := .status 500 "Failed to import playlists", user := exampleUser, store := []
        calls := [.tokenExchange (some "r1"), .saveUser] } :=
  import_fails_on_invalid_expiry longLivedRemote exampleClock exampleUser []
    ⟨"new", 8640000000000⟩ (by decide) rfl (by decide)

theorem millisToMinutesAndSeconds_eq_spec_witness :
    61000 < 2 ^ 53 ∧ millisToMinutesAndSeconds 61000 = specDuration 61000 :=
  ⟨by norm_num, (millisToMinutesAndSeconds_eq_spec 61000 (by norm_num)).1⟩

theorem stale_credential_refreshed_first_witness :
    ∃ rest, (importPlaylists exampleRemote exampleClock exampleUser []).calls =
        .tokenExchange exampleUser.refreshToken :: rest ∧
      ∀ c ∈ rest, ∀ rt, c ≠ .tokenExchange rt :=
  (stale_credential_refreshed_first exampleRemote exampleClock exampleUser []
    (Or.inr ⟨1000, rfl, by decide⟩)).1

theorem import_aborts_on_track_failure_witness :
    (importPlaylists failingRemote exampleClock exampleUser []).response =
      .status 500 "Failed to import playlists" ∧
    (importPlaylists failingRemote exampleClock exampleUser []).calls =
      [.tokenExchange (some "r1"), .saveUser, .listPlaylists "Bearer new",
       .listTracks "p1" "Bearer new", .findOneAndUpdate "p1", .listTracks "p2" "Bearer new"] :=
  have h := import_aborts_on_track_failure failingRemote exampleClock exampleUser renewedUser []
    [exampleItem "p1"] [exampleItem "p3"] (exampleItem "p2") "502" rfl rfl
    (by
      intro item hitem
      rw [List.mem_singleton] at hitem
      subst hitem
      exact ⟨examplePage, rfl⟩)
    rfl
  ⟨h.1, h.2.2.2.2⟩

theorem import_twice_idempotent_witness :
    UniqueIds [] ∧
    ∃ doc1 doc2,
      rowsWith (importPlaylists exampleRemote exampleClock exampleUser []).store "p1" = [doc1] ∧
      rowsWith (importPlaylists exampleRemote laterClock
        (importPlaylists exampleRemote exampleClock exampleUser []).user
        (importPlaylists exampleRemote exampleClock exampleUser []).store).store "p1" = [doc2] ∧
      doc2.createdAt = doc1.createdAt ∧ doc2.likes = doc1.likes ∧
      doc2.commentsCount = doc1.commentsCount :=
  ⟨uniqueIds_nil,
    (import_twice_idempotent exampleRemote exampleClock laterClock exampleUser []
      uniqueIds_nil).1 "p1" (by decide)⟩

end Backend
